import Mathlib

/-!
Shallow embedding of the vectorized virtual-dispatch recording core
(`enoki/vcall.h`): index collection/writing over structured argument
values, the single-instance fast path, the multi-instance recorder with
side-effect isolation and rollback, and the call driver.

Backend operations (`jit_*`), the registry, and the per-lane array
primitives (`select`, `&&`, `neq`) are external collaborators of this
core; they are modelled from the spec's description of their contracts.
The recording algorithm itself is translated directly from the source.
-/

namespace Enoki

/-- JIT backends; the LLVM backend implements masking via an explicit
mask stack, others via predication. -/
inductive JitBackend where
  | LLVM
  | CUDA
deriving DecidableEq

/-- Modelled from the spec: the data handed to the backend's jump-table
constructor `jit_var_vcall` (label, selector reference, implementation
count, input references, concatenated output references, side-effect
count table, and the number of per-slot output references to produce). -/
structure VCallRecord where
  label : String
  selfIndex : Nat
  n_inst : Nat
  in_indices : List Nat
  out_all : List Nat
  se_count : List Nat
  out_len : Nat
deriving DecidableEq

/-- Modelled from the spec: the backend's shared mutable state — the
side-effect log, diagnostic-prefix stack, mask stack, the
postpone-side-effects flag, the jump-table nodes built so far, and a
fresh-variable counter for newly created trace variables. -/
structure JitState where
  sideEffects : List Nat
  prefixStack : List String
  maskStack : List Nat
  postponeSideEffects : Bool
  vcalls : List VCallRecord
  nextVar : Nat
deriving DecidableEq

/-- Modelled from the spec: number of side effects currently scheduled. -/
def jit_side_effects_scheduled (s : JitState) : Nat := s.sideEffects.length

/-- Modelled from the spec: roll the side-effect log back to a prior count. -/
def jit_side_effects_rollback (c : Nat) (s : JitState) : JitState :=
  { s with sideEffects := s.sideEffects.take c }

/-- Modelled from the spec: push a diagnostic label. -/
def jit_prefix_push (l : String) (s : JitState) : JitState :=
  { s with prefixStack := l :: s.prefixStack }

/-- Modelled from the spec: pop the topmost diagnostic label. -/
def jit_prefix_pop (s : JitState) : JitState :=
  { s with prefixStack := s.prefixStack.tail }

/-- Modelled from the spec: read the postpone-side-effects flag. -/
def jit_flag_postpone (s : JitState) : Bool := s.postponeSideEffects

/-- Modelled from the spec: set the postpone-side-effects flag. -/
def jit_set_flag_postpone (b : Bool) (s : JitState) : JitState :=
  { s with postponeSideEffects := b }

/-- Modelled from the spec: create a new trace variable (used for the
synthesized vcall mask statement); returns its reference. -/
def jit_var_new_stmt (s : JitState) : Nat × JitState :=
  (s.nextVar, { s with nextVar := s.nextVar + 1 })

/-- Modelled from the spec: push a mask variable onto the mask stack. -/
def jit_var_mask_push (idx : Nat) (s : JitState) : JitState :=
  { s with maskStack := idx :: s.maskStack }

/-- Modelled from the spec: pop the topmost mask variable. -/
def jit_var_mask_pop (s : JitState) : JitState :=
  { s with maskStack := s.maskStack.tail }

/-- Modelled from the spec: materialize one jump-table node and produce
one fresh reference per logical output slot. -/
def jit_var_vcall (r : VCallRecord) (s : JitState) : List Nat × JitState :=
  (List.range' s.nextVar r.out_len,
   { s with vcalls := s.vcalls ++ [r], nextVar := s.nextVar + r.out_len })

/-- Modelled from the spec: combining the self selector with the active
mask and the backend's externally imposed mask (`self & (peek & mask)`)
is an array operation of the backend producing a new trace variable;
only its reference is consumed by this core. -/
def combined_self_index (s : JitState) : Nat × JitState :=
  (s.nextVar, { s with nextVar := s.nextVar + 1 })

/-- An argument or result value: a trace-backed leaf carrying a
trace-variable reference, a (possibly nested) array, a differentiable
wrapper, a structured aggregate, or an opaque non-traced value. -/
inductive Value where
  | leaf (index : Nat)
  | arr (entries : List Value)
  | diffw (v : Value)
  | strct (fields : List Value)
  | opaq

/-- The error message raised on a zero (uninitialized) reference. -/
def uninit_msg : String :=
  "enoki::detail::collect_indices(): encountered an uninitialized function argument while recording a virtual function call!"

mutual

/-- Source `collect_indices`: walk a value and append every underlying
trace-variable reference, failing on the zero sentinel. -/
def collect_indices : Value → Except String (List Nat)
  | .leaf i => if i = 0 then .error uninit_msg else .ok [i]
  | .arr es => collect_list es
  | .diffw v => collect_indices v
  | .strct fs => collect_list fs
  | .opaq => .ok []

/-- Entry-wise collection over the entries of an array / the fields of a
struct, in order, first error propagating. -/
def collect_list : List Value → Except String (List Nat)
  | [] => .ok []
  | v :: vs =>
    match collect_indices v with
    | .error e => .error e
    | .ok l =>
      match collect_list vs with
      | .error e => .error e
      | .ok l' => .ok (l ++ l')

end

mutual

/-- Source `write_indices`: walk a value in the same order as
`collect_indices`, consuming references from `indices` at a cursor and
installing them into the leaves. -/
def write_indices (indices : List Nat) : Value → Nat → Value × Nat
  | .leaf _, off => (.leaf (indices.getD off 0), off + 1)
  | .arr es, off =>
    let p := write_vals indices es off
    (.arr p.1, p.2)
  | .diffw v, off =>
    let p := write_indices indices v off
    (.diffw p.1, p.2)
  | .strct fs, off =>
    let p := write_vals indices fs off
    (.strct p.1, p.2)
  | .opaq, off => (.opaq, off)

/-- Entry-wise writing over entries/fields, threading the cursor. -/
def write_vals (indices : List Nat) : List Value → Nat → List Value × Nat
  | [], off => ([], off)
  | v :: vs, off =>
    let p := write_indices indices v off
    let q := write_vals indices vs p.2
    (p.1 :: q.1, q.2)

end

mutual

/-- Modelled from the spec: a freshly zero-initialized value of the same
structure (every trace-backed leaf holds the zero sentinel). -/
def zero_value : Value → Value
  | .leaf _ => .leaf 0
  | .arr es => .arr (zero_vals es)
  | .diffw v => .diffw (zero_value v)
  | .strct fs => .strct (zero_vals fs)
  | .opaq => .opaq

/-- Zero-initialization over entries/fields. -/
def zero_vals : List Value → List Value
  | [] => []
  | v :: vs => zero_value v :: zero_vals vs

end

/-- The mask installed into an argument's masking slot by `set_mask`:
either the literal unconditional `true` or a concrete per-lane mask. -/
inductive MaskArg where
  | always_true
  | lanes (m : List Bool)

/-- An argument as the user callback receives it: the original value,
together with the mask override installed in its masking slot (if any). -/
structure ArgM where
  value : Value
  maskSlot : Option MaskArg

/-- Modelled from the spec: `set_mask` forces an argument to carry the
given mask in its masking slot. -/
def set_mask (m : MaskArg) (v : Value) : ArgM := ⟨v, some m⟩

/-- An argument passed through unchanged (no mask override). -/
def plain_arg (v : Value) : ArgM := ⟨v, none⟩

/-- Errors that can escape the recording core: the uninitialized-argument
collection error, or an arbitrary error raised by the user callback or
the backend. -/
inductive RecError where
  | uninitArg (msg : String)
  | user (code : Nat)
deriving DecidableEq

/-- The user callback: given an implementation pointer, the argument
list, and the backend state, it either returns a result value and an
updated state, or raises carrying the state at the point of the throw. -/
def Func : Type :=
  Nat → List ArgM → JitState → Except (RecError × JitState) (Value × JitState)

/-- Modelled from the spec: per-lane `neq(self, nullptr)` combined with
the active mask via logical AND (the fast path's combined mask). -/
def mask_and_nonnull : List Bool → List Nat → List Bool
  | m :: ms, p :: ps => (m && decide (p ≠ 0)) :: mask_and_nonnull ms ps
  | _, _ => []

/-- Modelled from the spec: the per-lane semantics of the `select`
primitive — for each lane, the first operand where the mask is true,
the second where it is false. -/
def lane_select : List Bool → List Int → List Int → List Int
  | m :: ms, a :: as, b :: bs => (if m then a else b) :: lane_select ms as bs
  | _, _, _ => []

/-- Entry into one iteration of the multi-instance loop (source lines
89-100): push the diagnostic label, set the side-effect-deferral flag,
and on the LLVM backend synthesize the vcall mask statement and push it
onto the mask stack. -/
def branch_enter (Backend : JitBackend) (label : String) (s : JitState) : JitState :=
  let s1 := jit_prefix_push label s
  let s2 := jit_set_flag_postpone true s1
  if Backend = JitBackend.LLVM then
    let p := jit_var_new_stmt s2
    jit_var_mask_push p.1 p.2
  else s2

/-- Normal exit of one iteration (source lines 117-120): restore the
saved flag, pop the diagnostic label, pop the synthesized mask. -/
def branch_exit_ok (Backend : JitBackend) (flag_before : Bool) (s' : JitState) : JitState :=
  let s4 := jit_set_flag_postpone flag_before s'
  let s5 := jit_prefix_pop s4
  if Backend = JitBackend.LLVM then jit_var_mask_pop s5 else s5

/-- Exceptional exit of one iteration (source lines 109-115): pop the
diagnostic label, roll the side-effect log back to `rollbackTo`
(`se_count[0]`), restore the saved flag, pop the synthesized mask. -/
def branch_exit_err (Backend : JitBackend) (flag_before : Bool) (rollbackTo : Nat)
    (sE : JitState) : JitState :=
  let c1 := jit_prefix_pop sE
  let c2 := jit_side_effects_rollback rollbackTo c1
  let c3 := jit_set_flag_postpone flag_before c2
  if Backend = JitBackend.LLVM then jit_var_mask_pop c3 else c3

/-- The try-block body of one loop iteration (source lines 102-108):
invoke the callback — with always-true-masked arguments when the result
type is void (line 103), with the plain arguments otherwise (line 106) —
and collect the output references for non-void results (line 107). -/
def branch_body (resultVoid : Bool) (func : Func) (args : List Value)
    (base : Nat) (s3 : JitState) :
    Except (RecError × JitState) (List Nat × JitState) :=
  if resultVoid then
    match func base (args.map (set_mask MaskArg.always_true)) s3 with
    | .ok (_, s') => .ok ([], s')
    | .error e => .error e
  else
    match func base (args.map plain_arg) s3 with
    | .ok (tmp, s') =>
      match collect_indices tmp with
      | .ok outs => .ok (outs, s')
      | .error msg => .error (RecError.uninitArg msg, s')
    | .error e => .error e

/-- The diagnostic label of the j-th recorded instance (source line 83). -/
def vcall_label (domain fname : String) (j : Nat) : String :=
  "VCall: " ++ domain ++ "::" ++ fname ++ "() [instance " ++ toString j ++ "]"

/-- One full iteration of the multi-instance loop (source lines 83-120),
as entry, body, and the matching exit on each path; the saved deferral
flag is the one read right after the label push (source line 90). -/
def record_branch (Backend : JitBackend) (resultVoid : Bool)
    (domain fname : String) (func : Func) (args : List Value)
    (base j rollbackTo : Nat) (s : JitState) :
    Except (RecError × JitState) (List Nat × JitState) :=
  match branch_body resultVoid func args base
      (branch_enter Backend (vcall_label domain fname j) s) with
  | .error (e, sE) =>
    .error (e, branch_exit_err Backend
      (jit_flag_postpone (jit_prefix_push (vcall_label domain fname j) s)) rollbackTo sE)
  | .ok (outs, s') =>
    .ok (outs, branch_exit_ok Backend
      (jit_flag_postpone (jit_prefix_push (vcall_label domain fname j) s)) s')

/-- The multi-instance loop (source lines 82-122): scan registry ids
`i, i+1, ...` (`remaining` ids left), skipping unregistered ids; for
each live id record one branch, append its output references, record
the cumulative side-effect count in the table at position `j`, and
increment `j`. -/
def record_loop (Backend : JitBackend) (resultVoid : Bool)
    (domain fname : String) (registry : Nat → Option Nat) (func : Func)
    (args : List Value) :
    Nat → Nat → Nat → List Nat → List Nat → JitState →
    Except (RecError × JitState) (List Nat × List Nat × Nat × JitState)
  | 0, _, j, outAll, seCount, s => .ok (outAll, seCount, j, s)
  | r + 1, i, j, outAll, seCount, s =>
    match registry i with
    | none => record_loop Backend resultVoid domain fname registry func args r (i + 1) j outAll seCount s
    | some base =>
      match record_branch Backend resultVoid domain fname func args base j (seCount.getD 0 0) s with
      | .error e => .error e
      | .ok (outs, s6) =>
        record_loop Backend resultVoid domain fname registry func args r (i + 1) (j + 1)
          (outAll ++ outs) (seCount.set j (jit_side_effects_scheduled s6)) s6

/-- The tail of the multi-instance path (source lines 124-139): compute
the per-slot output count, combine the selector, materialize the
jump-table node, and for non-void results write the backend-produced
per-slot references into a default-constructed result (`resultShape`)
starting from cursor 0. -/
def finish_vcall (resultVoid : Bool) (resultShape : Value) (domain fname : String)
    (n_inst_actual : Nat) (indices_in indices_out_all seCount : List Nat)
    (s6 : JitState) : Except (RecError × JitState) (Value × JitState) :=
  let outLen := indices_out_all.length / n_inst_actual
  let p := combined_self_index s6
  let q := jit_var_vcall
    ⟨domain ++ "::" ++ fname ++ "()", p.1, n_inst_actual, indices_in, indices_out_all,
     seCount, outLen⟩ p.2
  if resultVoid then .ok (resultShape, q.2)
  else .ok ((write_indices q.1 resultShape 0).1, q.2)

/-- Source `vcall_jit_record_impl`: single-instance fast path when
`n_inst_actual = 1` (combined mask threaded into every argument's
masking slot, result selected against zero); otherwise the
multi-instance path — collect all input references up front, record the
side-effect baseline into the table's entry 0, run the loop, and on
success finish by materializing the jump-table node. -/
def vcall_jit_record_impl (Backend : JitBackend) (resultVoid : Bool)
    (selectR : List Bool → Value → Value → Value) (zeroR resultShape : Value)
    (domain fname : String) (n_inst_max n_inst_actual : Nat) (inst : Nat)
    (registry : Nat → Option Nat) (func : Func)
    (self : List Nat) (mask : List Bool) (args : List Value)
    (s : JitState) : Except (RecError × JitState) (Value × JitState) :=
  if n_inst_actual = 1 then
    match func inst (args.map (set_mask (MaskArg.lanes (mask_and_nonnull mask self)))) s with
    | .error e => .error e
    | .ok (tmp, s') =>
      if resultVoid then .ok (resultShape, s')
      else .ok (selectR (mask_and_nonnull mask self) tmp zeroR, s')
  else
    match collect_list args with
    | .error msg => .error (RecError.uninitArg msg, s)
    | .ok indices_in =>
      match record_loop Backend resultVoid domain fname registry func args n_inst_max 1 1 []
          ((List.replicate (n_inst_actual + 1) 0).set 0 (jit_side_effects_scheduled s)) s with
      | .error e => .error e
      | .ok (indices_out_all, seCount, _, s6) =>
        finish_vcall resultVoid resultShape domain fname n_inst_actual indices_in
          indices_out_all seCount s6

/-- The registry scan of the call driver (source lines 152-160): visit
ids `i, i+1, ...` (`r` ids left) in ascending order, counting live
entries; every live entry overwrites the remembered pointer, so the
result is the pointer of the highest live id. -/
def registry_scan (registry : Nat → Option Nat) (i : Nat) : Nat → Option Nat × Nat
  | 0 => (none, 0)
  | r + 1 =>
    let rest := registry_scan registry (i + 1) r
    match registry i with
    | none => rest
    | some b => (some (rest.1.getD b), rest.2 + 1)

/-- Source `vcall_jit_record` (the call driver): scan the registry for
live implementations; if none are live or the selector has zero lanes,
return a zero-filled result of the selector's lane count; otherwise
dispatch to `vcall_jit_record_impl` with placeholder-transformed
arguments. `zeroSizedR` stands for the collaborator `zero<Result>(n)`
and `placeholderF` for the collaborator `placeholder`. -/
def vcall_jit_record (Backend : JitBackend) (resultVoid : Bool)
    (selectR : List Bool → Value → Value → Value) (zeroR resultShape : Value)
    (zeroSizedR : Nat → Value) (placeholderF : Value → Value)
    (domain fname : String) (n_inst_max : Nat)
    (registry : Nat → Option Nat) (func : Func)
    (self : List Nat) (mask : List Bool) (args : List Value)
    (s : JitState) : Except (RecError × JitState) (Value × JitState) :=
  let scan := registry_scan registry 1 n_inst_max
  let n_inst_actual := scan.2
  let self_size := self.length
  if n_inst_actual = 0 ∨ self_size = 0 then
    .ok (zeroSizedR self_size, s)
  else
    vcall_jit_record_impl Backend resultVoid selectR zeroR resultShape domain fname
      n_inst_max n_inst_actual (scan.1.getD 0) registry func self mask
      (args.map placeholderF) s

/-- The live registry ids among `i, i+1, ...` (`r` ids considered), in
ascending order: exactly the ids the multi-instance loop records. -/
def live_ids (registry : Nat → Option Nat) (i : Nat) : Nat → List Nat
  | 0 => []
  | r + 1 =>
    match registry i with
    | none => live_ids registry (i + 1) r
    | some _ => i :: live_ids registry (i + 1) r

/-- The backend state carried by a callback outcome (normal or raised). -/
def resState : Except (RecError × JitState) (Value × JitState) → JitState
  | .ok (_, s) => s
  | .error (_, s) => s

/-- `s'` extends `s`: the diagnostic-prefix stack, mask stack, deferral
flag and jump-table node list are untouched, and the side-effect log has
only been appended to. -/
def StateExtends (s s' : JitState) : Prop :=
  s'.prefixStack = s.prefixStack ∧ s'.maskStack = s.maskStack ∧
  s'.postponeSideEffects = s.postponeSideEffects ∧ s'.vcalls = s.vcalls ∧
  ∃ new, s'.sideEffects = s.sideEffects ++ new

/-- A well-behaved user callback: balanced with respect to the backend's
stacks and flag on every outcome (including a raise), and only
scheduling new side effects, never unscheduling old ones. -/
def FuncOk (func : Func) : Prop :=
  ∀ p as s, StateExtends s (resState (func p as s))

/-- A callback whose result type has a fixed shape: every successful
invocation yields a value whose collected reference list has length
`c` (in the source this holds by typing: every branch returns the same
static `Result` type). -/
def FuncShape (func : Func) (c : Nat) : Prop :=
  ∀ p as u tmp u', func p as u = .ok (tmp, u') →
    ∃ l, collect_indices tmp = .ok l ∧ l.length = c

theorem stateExtends_refl (s : JitState) : StateExtends s s :=
  ⟨rfl, rfl, rfl, rfl, [], by simp⟩

theorem stateExtends_trans {s t u : JitState}
    (h1 : StateExtends s t) (h2 : StateExtends t u) : StateExtends s u := by
  obtain ⟨a1, a2, a3, a4, n1, a5⟩ := h1
  obtain ⟨b1, b2, b3, b4, n2, b5⟩ := h2
  exact ⟨b1.trans a1, b2.trans a2, b3.trans a3, b4.trans a4, n1 ++ n2,
    by rw [b5, a5, List.append_assoc]⟩

@[simp] theorem branch_enter_prefixStack (B : JitBackend) (l : String) (s : JitState) :
    (branch_enter B l s).prefixStack = l :: s.prefixStack := by
  cases B <;>
    simp [branch_enter, jit_prefix_push, jit_set_flag_postpone, jit_var_new_stmt,
      jit_var_mask_push]

@[simp] theorem branch_enter_sideEffects (B : JitBackend) (l : String) (s : JitState) :
    (branch_enter B l s).sideEffects = s.sideEffects := by
  cases B <;>
    simp [branch_enter, jit_prefix_push, jit_set_flag_postpone, jit_var_new_stmt,
      jit_var_mask_push]

@[simp] theorem branch_enter_vcalls (B : JitBackend) (l : String) (s : JitState) :
    (branch_enter B l s).vcalls = s.vcalls := by
  cases B <;>
    simp [branch_enter, jit_prefix_push, jit_set_flag_postpone, jit_var_new_stmt,
      jit_var_mask_push]

theorem branch_enter_maskStack (B : JitBackend) (l : String) (s : JitState) :
    (branch_enter B l s).maskStack =
      if B = JitBackend.LLVM then s.nextVar :: s.maskStack else s.maskStack := by
  cases B <;>
    simp [branch_enter, jit_prefix_push, jit_set_flag_postpone, jit_var_new_stmt,
      jit_var_mask_push]

@[simp] theorem branch_exit_err_prefixStack (B : JitBackend) (f : Bool) (rb : Nat) (sE : JitState) :
    (branch_exit_err B f rb sE).prefixStack = sE.prefixStack.tail := by
  cases B <;>
    simp [branch_exit_err, jit_prefix_pop, jit_side_effects_rollback, jit_set_flag_postpone,
      jit_var_mask_pop]

@[simp] theorem branch_exit_err_sideEffects (B : JitBackend) (f : Bool) (rb : Nat) (sE : JitState) :
    (branch_exit_err B f rb sE).sideEffects = sE.sideEffects.take rb := by
  cases B <;>
    simp [branch_exit_err, jit_prefix_pop, jit_side_effects_rollback, jit_set_flag_postpone,
      jit_var_mask_pop]

@[simp] theorem branch_exit_err_postpone (B : JitBackend) (f : Bool) (rb : Nat) (sE : JitState) :
    (branch_exit_err B f rb sE).postponeSideEffects = f := by
  cases B <;>
    simp [branch_exit_err, jit_prefix_pop, jit_side_effects_rollback, jit_set_flag_postpone,
      jit_var_mask_pop]

@[simp] theorem branch_exit_err_vcalls (B : JitBackend) (f : Bool) (rb : Nat) (sE : JitState) :
    (branch_exit_err B f rb sE).vcalls = sE.vcalls := by
  cases B <;>
    simp [branch_exit_err, jit_prefix_pop, jit_side_effects_rollback, jit_set_flag_postpone,
      jit_var_mask_pop]

theorem branch_exit_err_maskStack (B : JitBackend) (f : Bool) (rb : Nat) (sE : JitState) :
    (branch_exit_err B f rb sE).maskStack =
      if B = JitBackend.LLVM then sE.maskStack.tail else sE.maskStack := by
  cases B <;>
    simp [branch_exit_err, jit_prefix_pop, jit_side_effects_rollback, jit_set_flag_postpone,
      jit_var_mask_pop]

@[simp] theorem branch_exit_ok_prefixStack (B : JitBackend) (f : Bool) (sE : JitState) :
    (branch_exit_ok B f sE).prefixStack = sE.prefixStack.tail := by
  cases B <;> simp [branch_exit_ok, jit_prefix_pop, jit_set_flag_postpone, jit_var_mask_pop]

@[simp] theorem branch_exit_ok_sideEffects (B : JitBackend) (f : Bool) (sE : JitState) :
    (branch_exit_ok B f sE).sideEffects = sE.sideEffects := by
  cases B <;> simp [branch_exit_ok, jit_prefix_pop, jit_set_flag_postpone, jit_var_mask_pop]

@[simp] theorem branch_exit_ok_postpone (B : JitBackend) (f : Bool) (sE : JitState) :
    (branch_exit_ok B f sE).postponeSideEffects = f := by
  cases B <;> simp [branch_exit_ok, jit_prefix_pop, jit_set_flag_postpone, jit_var_mask_pop]

@[simp] theorem branch_exit_ok_vcalls (B : JitBackend) (f : Bool) (sE : JitState) :
    (branch_exit_ok B f sE).vcalls = sE.vcalls := by
  cases B <;> simp [branch_exit_ok, jit_prefix_pop, jit_set_flag_postpone, jit_var_mask_pop]

theorem branch_exit_ok_maskStack (B : JitBackend) (f : Bool) (sE : JitState) :
    (branch_exit_ok B f sE).maskStack =
      if B = JitBackend.LLVM then sE.maskStack.tail else sE.maskStack := by
  cases B <;> simp [branch_exit_ok, jit_prefix_pop, jit_set_flag_postpone, jit_var_mask_pop]

theorem branch_body_error {rv : Bool} {func : Func} {args : List Value} {base : Nat}
    {s3 sE : JitState} {e : RecError} (hf : FuncOk func)
    (h : branch_body rv func args base s3 = .error (e, sE)) : StateExtends s3 sE := by
  cases rv with
  | false =>
    simp only [branch_body, Bool.false_eq_true, if_false] at h
    rcases hfc : func base (args.map plain_arg) s3 with ⟨ee, se⟩ | ⟨tmp, sok⟩ <;>
      rw [hfc] at h
    · have hx := hf base (args.map plain_arg) s3
      rw [hfc] at hx
      simp only [] at h
      cases h
      exact hx
    · have hx := hf base (args.map plain_arg) s3
      rw [hfc] at hx
      simp only [] at h
      rcases hcol : collect_indices tmp with msg | outs <;> rw [hcol] at h
      · cases h
        exact hx
      · cases h
  | true =>
    simp only [branch_body, if_true] at h
    rcases hfc : func base (args.map (set_mask MaskArg.always_true)) s3 with ⟨ee, se⟩ | ⟨tmp, sok⟩ <;>
      rw [hfc] at h
    · have hx := hf base (args.map (set_mask MaskArg.always_true)) s3
      rw [hfc] at hx
      cases h
      exact hx
    · cases h

theorem branch_body_ok {rv : Bool} {func : Func} {args : List Value} {base : Nat}
    {s3 s' : JitState} {outs : List Nat} (hf : FuncOk func)
    (h : branch_body rv func args base s3 = .ok (outs, s')) :
    StateExtends s3 s' ∧ (rv = true → outs = []) ∧
    (rv = false → ∃ tmp, func base (args.map plain_arg) s3 = .ok (tmp, s') ∧
      collect_indices tmp = .ok outs) := by
  cases rv with
  | false =>
    simp only [branch_body, Bool.false_eq_true, if_false] at h
    rcases hfc : func base (args.map plain_arg) s3 with ⟨ee, se⟩ | ⟨tmp, sok⟩ <;>
      rw [hfc] at h
    · cases h
    · have hx := hf base (args.map plain_arg) s3
      rw [hfc] at hx
      simp only [] at h
      rcases hcol : collect_indices tmp with msg | l <;> rw [hcol] at h
      · cases h
      · cases h
        exact ⟨hx, by simp, fun _ => ⟨tmp, rfl, hcol⟩⟩
  | true =>
    simp only [branch_body, if_true] at h
    rcases hfc : func base (args.map (set_mask MaskArg.always_true)) s3 with ⟨ee, se⟩ | ⟨tmp, sok⟩ <;>
      rw [hfc] at h
    · cases h
    · have hx := hf base (args.map (set_mask MaskArg.always_true)) s3
      rw [hfc] at hx
      cases h
      exact ⟨hx, fun _ => rfl, by simp⟩

theorem record_branch_error {B : JitBackend} {rv : Bool} {dom nm : String}
    {func : Func} {args : List Value} {base j rb : Nat} {s s' : JitState} {e : RecError}
    (hf : FuncOk func) (hrb : rb ≤ s.sideEffects.length)
    (h : record_branch B rv dom nm func args base j rb s = .error (e, s')) :
    s'.prefixStack = s.prefixStack ∧ s'.sideEffects = s.sideEffects.take rb ∧
    s'.postponeSideEffects = s.postponeSideEffects ∧ s'.maskStack = s.maskStack ∧
    s'.vcalls = s.vcalls := by
  unfold record_branch at h
  rcases hb : branch_body rv func args base
      (branch_enter B (vcall_label dom nm j) s)
    with ⟨e0, sE⟩ | ⟨outs0, sq⟩ <;> rw [hb] at h
  · cases h
    obtain ⟨hp, hm, hfl, hv, new, hse⟩ := branch_body_error hf hb
    refine ⟨?_, ?_, ?_, ?_, ?_⟩
    · rw [branch_exit_err_prefixStack, hp, branch_enter_prefixStack, List.tail_cons]
    · rw [branch_exit_err_sideEffects, hse, branch_enter_sideEffects,
        List.take_append_of_le_length hrb]
    · rw [branch_exit_err_postpone]
      simp [jit_flag_postpone, jit_prefix_push]
    · rw [branch_exit_err_maskStack, hm, branch_enter_maskStack]
      cases B <;> simp
    · rw [branch_exit_err_vcalls, hv, branch_enter_vcalls]
  · cases h

theorem record_branch_ok {B : JitBackend} {rv : Bool} {dom nm : String}
    {func : Func} {args : List Value} {base j rb : Nat} {s s6 : JitState} {outs : List Nat}
    (hf : FuncOk func)
    (h : record_branch B rv dom nm func args base j rb s = .ok (outs, s6)) :
    s6.prefixStack = s.prefixStack ∧ s6.maskStack = s.maskStack ∧
    s6.postponeSideEffects = s.postponeSideEffects ∧ s6.vcalls = s.vcalls ∧
    (∃ new, s6.sideEffects = s.sideEffects ++ new) ∧
    (rv = true → outs = []) ∧
    (rv = false → ∀ c, FuncShape func c → outs.length = c) := by
  unfold record_branch at h
  rcases hb : branch_body rv func args base
      (branch_enter B (vcall_label dom nm j) s)
    with ⟨e0, sE⟩ | ⟨outs0, sq⟩ <;> rw [hb] at h
  · cases h
  · cases h
    obtain ⟨⟨hp, hm, hfl, hv, new, hse⟩, hvoid, hnonvoid⟩ := branch_body_ok hf hb
    refine ⟨?_, ?_, ?_, ?_, ?_, hvoid, ?_⟩
    · rw [branch_exit_ok_prefixStack, hp, branch_enter_prefixStack, List.tail_cons]
    · rw [branch_exit_ok_maskStack, hm, branch_enter_maskStack]
      cases B <;> simp
    · rw [branch_exit_ok_postpone]
      simp [jit_flag_postpone, jit_prefix_push]
    · rw [branch_exit_ok_vcalls, hv, branch_enter_vcalls]
    · exact ⟨new, by rw [branch_exit_ok_sideEffects, hse, branch_enter_sideEffects]⟩
    · intro hrv c hshape
      obtain ⟨tmp, hcall, hcol⟩ := hnonvoid hrv
      obtain ⟨l, hl, hlen⟩ := hshape _ _ _ _ _ hcall
      rw [hcol] at hl
      cases hl
      exact hlen

theorem getD_set_ne (l : List Nat) (i k v d : Nat) (h : i ≠ k) :
    (l.set i v).getD k d = l.getD k d := by
  simp [List.getD_eq_getElem?_getD, List.getElem?_set_ne h]

theorem getD_set_self (l : List Nat) (i v d : Nat) (h : i < l.length) :
    (l.set i v).getD i d = v := by
  simp [List.getD_eq_getElem?_getD, List.getElem?_set_eq_of_lt v h]

theorem record_loop_error {B : JitBackend} {rv : Bool} {dom nm : String}
    {registry : Nat → Option Nat} {func : Func} {args : List Value}
    (hf : FuncOk func) :
    ∀ (r i j : Nat) (outAll seCount : List Nat) (bs s : JitState) (e : RecError)
      (s' : JitState),
      StateExtends bs s →
      seCount.getD 0 0 = bs.sideEffects.length →
      1 ≤ j →
      record_loop B rv dom nm registry func args r i j outAll seCount s = .error (e, s') →
      s'.prefixStack = bs.prefixStack ∧ s'.sideEffects = bs.sideEffects ∧
      s'.postponeSideEffects = bs.postponeSideEffects ∧ s'.maskStack = bs.maskStack ∧
      s'.vcalls = bs.vcalls := by
  intro r
  induction r with
  | zero =>
    intro i j outAll seCount bs s e s' hext hse hj h
    simp [record_loop] at h
  | succ r ih =>
    intro i j outAll seCount bs s e s' hext hse hj h
    rw [record_loop] at h
    obtain ⟨hp0, hm0, hfl0, hv0, new0, hse0⟩ := hext
    rcases hreg : registry i with _ | base <;> simp only [hreg] at h
    · exact ih (i + 1) j outAll seCount bs s e s'
        ⟨hp0, hm0, hfl0, hv0, new0, hse0⟩ hse hj h
    · rcases hbr : record_branch B rv dom nm func args base j (seCount.getD 0 0) s
        with ⟨e0, sC⟩ | ⟨outs0, s6⟩ <;> simp only [hbr] at h
      · cases h
        have hrb : seCount.getD 0 0 ≤ s.sideEffects.length := by
          rw [hse, hse0]
          simp
        obtain ⟨hp, hs, hfl, hm, hv⟩ := record_branch_error hf hrb hbr
        refine ⟨hp.trans hp0, ?_, hfl.trans hfl0, hm.trans hm0, hv.trans hv0⟩
        rw [hs, hse, hse0, List.take_left]
      · obtain ⟨bp, bm, bfl, bv, ⟨bnew, bse⟩, _, _⟩ := record_branch_ok hf hbr
        have hext6 : StateExtends bs s6 :=
          stateExtends_trans ⟨hp0, hm0, hfl0, hv0, new0, hse0⟩
            ⟨bp, bm, bfl, bv, bnew, bse⟩
        have hse6 : (seCount.set j (jit_side_effects_scheduled s6)).getD 0 0 =
            bs.sideEffects.length := by
          rw [getD_set_ne _ _ _ _ _ (by omega), hse]
        exact ih (i + 1) (j + 1) (outAll ++ outs0) _ bs s6 e s' hext6 hse6 (by omega) h

theorem finish_vcall_spec (rv : Bool) (shape : Value) (dom nm : String) (n : Nat)
    (ind outAll seC : List Nat) (s6 : JitState) :
    ∃ res s', finish_vcall rv shape dom nm n ind outAll seC s6 = .ok (res, s') ∧
      s'.vcalls = s6.vcalls ++
        [⟨dom ++ "::" ++ nm ++ "()", s6.nextVar, n, ind, outAll, seC, outAll.length / n⟩] ∧
      s'.sideEffects = s6.sideEffects ∧ s'.prefixStack = s6.prefixStack ∧
      s'.maskStack = s6.maskStack ∧ s'.postponeSideEffects = s6.postponeSideEffects := by
  cases rv <;> exact ⟨_, _, rfl, rfl, rfl, rfl, rfl, rfl⟩

/-- C1: if any implementation's callback (or the backend) raises during
the multi-instance recording loop, then before the error is re-raised
the diagnostic label is popped, the side-effect log is rolled back to
the count recorded before any implementation ran (discarding the side
effects of every implementation processed so far in this call), the
saved side-effect-deferral flag is restored, the synthesized mask is
popped (so the mask stack is unchanged on every backend), and no
jump-table node is created: the recording is all-or-nothing. -/
theorem impl_rollback_on_error
    {B : JitBackend} {rv : Bool} {selectR : List Bool → Value → Value → Value}
    {zeroR resultShape : Value} {dom nm : String} {n_max n_act inst : Nat}
    {registry : Nat → Option Nat} {func : Func} {self : List Nat} {mask : List Bool}
    {args : List Value} {s : JitState} {e : RecError} {s' : JitState}
    (hne : n_act ≠ 1) (hf : FuncOk func)
    (h : vcall_jit_record_impl B rv selectR zeroR resultShape dom nm n_max n_act inst
      registry func self mask args s = .error (e, s')) :
    s'.prefixStack = s.prefixStack ∧ s'.sideEffects = s.sideEffects ∧
    s'.postponeSideEffects = s.postponeSideEffects ∧ s'.maskStack = s.maskStack ∧
    s'.vcalls = s.vcalls := by
  unfold vcall_jit_record_impl at h
  rw [if_neg hne] at h
  rcases hcol : collect_list args with msg | ind <;> simp only [hcol] at h
  · cases h
    exact ⟨rfl, rfl, rfl, rfl, rfl⟩
  · rcases hloop : record_loop B rv dom nm registry func args n_max 1 1 []
        ((List.replicate (n_act + 1) 0).set 0 (jit_side_effects_scheduled s)) s
      with ⟨e0, sE⟩ | ⟨outAll', seC', j', s6⟩ <;> simp only [hloop] at h
    · cases h
      refine record_loop_error hf n_max 1 1 [] _ s s _ _ (stateExtends_refl s) ?_
        (le_refl 1) hloop
      exact getD_set_self _ 0 _ 0 (by simp)
    · obtain ⟨res, sfin, heq, _⟩ :=
        finish_vcall_spec rv resultShape dom nm n_act ind outAll' seC' s6
      rw [heq] at h
      cases h

/-- A callback that schedules one side effect and then raises. -/
def fail_func : Func :=
  fun _ _ s => .error (RecError.user 1, { s with sideEffects := s.sideEffects ++ [99] })

theorem fail_func_funcOk : FuncOk fail_func :=
  fun _ _ s => ⟨rfl, rfl, rfl, rfl, [99], rfl⟩

/-- A nonempty backend state used by witnesses. -/
def state1 : JitState := ⟨[5], ["outer"], [7], false, [], 3⟩

/-- A registry with live implementations at ids 1 and 2. -/
def registry2 : Nat → Option Nat := fun i => if i = 0 ∨ i > 2 then none else some i

theorem impl_rollback_on_error_witness :
    (2 : Nat) ≠ 1 ∧ FuncOk fail_func ∧
    (vcall_jit_record_impl JitBackend.CUDA false (fun _ a _ => a) (Value.leaf 0)
        (Value.leaf 0) "Base" "f" 2 2 0 registry2 fail_func [1, 2] [true, true] [] state1
      = .error (RecError.user 1, state1)) ∧
    (state1.prefixStack = state1.prefixStack ∧ state1.sideEffects = state1.sideEffects ∧
     state1.postponeSideEffects = state1.postponeSideEffects ∧
     state1.maskStack = state1.maskStack ∧ state1.vcalls = state1.vcalls) :=
  ⟨by decide, fail_func_funcOk, by rfl,
    @impl_rollback_on_error JitBackend.CUDA false (fun _ a _ => a) (Value.leaf 0)
      (Value.leaf 0) "Base" "f" 2 2 0 registry2 fail_func [1, 2] [true, true] [] state1
      (RecError.user 1) state1 (by decide) fail_func_funcOk (by rfl)⟩

/-- C4: on the multi-instance path, if any argument contains a
trace-backed leaf holding the zero sentinel, the up-front index
collection raises the uninitialized-argument error immediately: the
call fails for every callback (so no implementation was invoked) and
the backend state is returned unchanged (so no side effect was
recorded, and no node was created). -/
theorem impl_uninit_arg_up_front
    {B : JitBackend} {rv : Bool} {selectR : List Bool → Value → Value → Value}
    {zeroR resultShape : Value} {dom nm : String} {n_max n_act inst : Nat}
    {registry : Nat → Option Nat} {self : List Nat} {mask : List Bool}
    {args : List Value} {s : JitState} {msg : String}
    (hne : n_act ≠ 1) (hcol : collect_list args = .error msg) :
    ∀ func : Func,
      vcall_jit_record_impl B rv selectR zeroR resultShape dom nm n_max n_act inst
        registry func self mask args s = .error (RecError.uninitArg msg, s) := by
  intro func
  unfold vcall_jit_record_impl
  rw [if_neg hne]
  simp only [hcol]

theorem impl_uninit_arg_up_front_witness :
    (2 : Nat) ≠ 1 ∧
    collect_list [Value.leaf 3, Value.strct [Value.leaf 0]] = .error uninit_msg ∧
    vcall_jit_record_impl JitBackend.LLVM false (fun _ a _ => a) (Value.leaf 0)
        (Value.leaf 0) "Base" "f" 2 2 0 registry2 fail_func [1, 2] [true, true]
        [Value.leaf 3, Value.strct [Value.leaf 0]] state1
      = .error (RecError.uninitArg uninit_msg, state1) :=
  ⟨by decide, by rfl,
    @impl_uninit_arg_up_front JitBackend.LLVM false (fun _ a _ => a) (Value.leaf 0)
      (Value.leaf 0) "Base" "f" 2 2 0 registry2 [1, 2] [true, true]
      [Value.leaf 3, Value.strct [Value.leaf 0]] state1 uninit_msg
      (by decide) (by rfl) fail_func⟩

theorem lane_select_zero :
    ∀ (mask : List Bool) (self : List Nat) (res : List Int) (l : Nat),
      l < mask.length → l < self.length → l < res.length →
      (mask.getD l false = false ∨ self.getD l 0 = 0) →
      (lane_select (mask_and_nonnull mask self) res (List.replicate res.length 0)).getD l 0
        = 0 := by
  intro mask
  induction mask with
  | nil => intro self res l h1; simp at h1
  | cons m ms ih =>
    intro self res l h1 h2 h3 h4
    cases self with
    | nil => simp at h2
    | cons p ps =>
      cases res with
      | nil => simp at h3
      | cons r rs =>
        rw [show (r :: rs).length = rs.length + 1 from rfl, List.replicate_succ]
        rw [show mask_and_nonnull (m :: ms) (p :: ps)
            = (m && decide (p ≠ 0)) :: mask_and_nonnull ms ps from rfl]
        rw [show lane_select ((m && decide (p ≠ 0)) :: mask_and_nonnull ms ps) (r :: rs)
              (0 :: List.replicate rs.length 0)
            = (if (m && decide (p ≠ 0)) = true then r else 0)
              :: lane_select (mask_and_nonnull ms ps) rs (List.replicate rs.length 0)
          from rfl]
        cases l with
        | zero =>
          rw [List.getD_cons_zero]
          rcases h4 with h4 | h4
          · rw [List.getD_cons_zero] at h4
            simp [h4]
          · rw [List.getD_cons_zero] at h4
            simp [h4]
        | succ l =>
          rw [List.getD_cons_succ]
          rw [List.getD_cons_succ] at h4
          exact ih ps rs l (by simpa using h1) (by simpa using h2) (by simpa using h3) h4

/-- C5: when exactly one implementation is live, the fast path invokes
the callback exactly once, with the combined mask
`active mask AND (selector not null)` threaded into every argument's
masking slot, and for non-void results returns
`select(combined mask, callback result, zero)`; under the per-lane
semantics of `select`, every lane whose selector is null or whose mask
is false observes a zero result. -/
theorem impl_single_fast_path
    (B : JitBackend) (selectR : List Bool → Value → Value → Value)
    (zeroR resultShape : Value) (dom nm : String) (n_max inst : Nat)
    (registry : Nat → Option Nat) (func : Func) (self : List Nat)
    (mask : List Bool) (args : List Value) (s : JitState) :
    (vcall_jit_record_impl B false selectR zeroR resultShape dom nm n_max 1 inst
        registry func self mask args s =
      match func inst (args.map (set_mask (MaskArg.lanes (mask_and_nonnull mask self)))) s with
      | .error e => .error e
      | .ok (tmp, s') => .ok (selectR (mask_and_nonnull mask self) tmp zeroR, s')) ∧
    (∀ (res : List Int) (l : Nat), l < mask.length → l < self.length → l < res.length →
      (mask.getD l false = false ∨ self.getD l 0 = 0) →
      (lane_select (mask_and_nonnull mask self) res (List.replicate res.length 0)).getD l 0
        = 0) := by
  constructor
  · unfold vcall_jit_record_impl
    rw [if_pos rfl]
    rcases hf : func inst (args.map (set_mask (MaskArg.lanes (mask_and_nonnull mask self)))) s
      with e | ⟨tmp, s'⟩ <;> simp
  · exact fun res l => lane_select_zero mask self res l

theorem impl_single_fast_path_witness :
    ((0 : Nat) < 3 ∧ (0 : Nat) < 3 ∧ (0 : Nat) < 3 ∧
      (([true, false, true] : List Bool).getD 0 false = false ∨
        ([0, 2, 3] : List Nat).getD 0 0 = 0)) ∧
    (lane_select (mask_and_nonnull [true, false, true] [0, 2, 3]) [10, 20, 30]
      (List.replicate ([10, 20, 30] : List Int).length 0)).getD 0 0 = 0 :=
  ⟨⟨by decide, by decide, by decide, Or.inr (by decide)⟩,
    (impl_single_fast_path JitBackend.CUDA (fun _ a _ => a) (Value.leaf 0) (Value.leaf 0)
      "Base" "f" 3 7 registry2 fail_func [0, 2, 3] [true, false, true] [] state1).2
      [10, 20, 30] 0 (by decide) (by decide) (by decide) (Or.inr (by decide))⟩

/-- C9: the single-implementation fast path performs no index collection
on the arguments: even when the arguments contain an uninitialized
(zero-sentinel) trace reference — so that collection would fail — the
fast path succeeds, invoking the callback with the combined-mask
arguments; the uninitialized-argument check is reached only on the
multi-instance path. -/
theorem impl_single_no_collect
    {B : JitBackend} {selectR : List Bool → Value → Value → Value}
    {zeroR resultShape : Value} {dom nm : String} {n_max inst : Nat}
    {registry : Nat → Option Nat} {func : Func} {self : List Nat} {mask : List Bool}
    {args : List Value} {s : JitState} {msg : String} {tmp : Value} {s' : JitState}
    (hbad : collect_list args = .error msg)
    (hfunc : func inst (args.map (set_mask (MaskArg.lanes (mask_and_nonnull mask self)))) s
      = .ok (tmp, s')) :
    vcall_jit_record_impl B false selectR zeroR resultShape dom nm n_max 1 inst
      registry func self mask args s
      = .ok (selectR (mask_and_nonnull mask self) tmp zeroR, s') := by
  unfold vcall_jit_record_impl
  rw [if_pos rfl]
  simp only [hfunc]
  rfl

/-- A callback that ignores its arguments and returns a fixed leaf. -/
def const_func : Func := fun _ _ s => .ok (Value.leaf 8, s)

theorem impl_single_no_collect_witness :
    collect_list [Value.leaf 0] = .error uninit_msg ∧
    const_func 7 ([Value.leaf 0].map
        (set_mask (MaskArg.lanes (mask_and_nonnull [true] [4])))) state1
      = .ok (Value.leaf 8, state1) ∧
    vcall_jit_record_impl JitBackend.CUDA false (fun _ a _ => a) (Value.leaf 0)
        (Value.leaf 0) "Base" "f" 3 1 7 registry2 const_func [4] [true] [Value.leaf 0] state1
      = .ok (Value.leaf 8, state1) :=
  ⟨by rfl, by rfl,
    @impl_single_no_collect JitBackend.CUDA (fun _ a _ => a) (Value.leaf 0) (Value.leaf 0)
      "Base" "f" 3 7 registry2 const_func [4] [true] [Value.leaf 0] state1 uninit_msg
      (Value.leaf 8) state1 (by rfl) (by rfl)⟩

theorem registry_scan_all_none (registry : Nat → Option Nat) :
    ∀ (r i : Nat), (∀ m, i ≤ m → m < i + r → registry m = none) →
      registry_scan registry i r = (none, 0) := by
  intro r
  induction r with
  | zero => intro i _; rfl
  | succ r ih =>
    intro i h
    have h0 : registry i = none := h i (le_refl i) (by omega)
    have hrest := ih (i + 1) (fun m hm1 hm2 => h m (by omega) (by omega))
    simp [registry_scan, h0, hrest]

theorem registry_scan_last (registry : Nat → Option Nat) :
    ∀ (r i k b : Nat), i ≤ k → k < i + r → registry k = some b →
      (∀ m, k < m → m < i + r → registry m = none) →
      (registry_scan registry i r).1 = some b := by
  intro r
  induction r with
  | zero => intro i k b hik hkr; omega
  | succ r ih =>
    intro i k b hik hkr hk hafter
    by_cases hik0 : i = k
    · subst hik0
      have hrest := registry_scan_all_none registry r (i + 1)
        (fun m hm1 hm2 => hafter m (by omega) (by omega))
      simp [registry_scan, hk, hrest]
    · have hlt : i < k := by omega
      have hrest := ih (i + 1) k b (by omega) (by omega) hk
        (fun m hm1 hm2 => hafter m hm1 (by omega))
      rcases hreg : registry i with _ | b0 <;> simp [registry_scan, hreg, hrest]

theorem registry_scan_pos (registry : Nat → Option Nat) :
    ∀ (r i k b : Nat), i ≤ k → k < i + r → registry k = some b →
      1 ≤ (registry_scan registry i r).2 := by
  intro r
  induction r with
  | zero => intro i k b hik hkr; omega
  | succ r ih =>
    intro i k b hik hkr hk
    by_cases hik0 : i = k
    · subst hik0
      simp [registry_scan, hk]
    · have hrest := ih (i + 1) k b (by omega) (by omega) hk
      rcases hreg : registry i with _ | b0 <;> simp [registry_scan, hreg] <;> omega

/-- C10: the one live pointer remembered by the driver's ascending
registry scan is the live implementation with the highest registered id
(later live entries overwrite the remembered pointer); and when that is
the only live implementation and the selector is nonempty, the driver
passes exactly that pointer to `vcall_jit_record_impl` as the instance
used by the single-implementation fast path. -/
theorem driver_scan_remembers_highest
    {B : JitBackend} {rv : Bool} {selectR : List Bool → Value → Value → Value}
    {zeroR resultShape : Value} {zeroSizedR : Nat → Value} {placeholderF : Value → Value}
    {dom nm : String} {func : Func} {self : List Nat} {mask : List Bool}
    {args : List Value} {s : JitState}
    (registry : Nat → Option Nat) (n k b : Nat)
    (h1 : 1 ≤ k) (h2 : k ≤ n) (hk : registry k = some b)
    (hafter : ∀ m, k < m → m ≤ n → registry m = none) :
    (registry_scan registry 1 n).1 = some b ∧
    ((∀ m, 1 ≤ m → m ≤ n → m ≠ k → registry m = none) → self ≠ [] →
      vcall_jit_record B rv selectR zeroR resultShape zeroSizedR placeholderF dom nm n
          registry func self mask args s
        = vcall_jit_record_impl B rv selectR zeroR resultShape dom nm n
            (registry_scan registry 1 n).2 b registry func self mask
            (args.map placeholderF) s) := by
  have hfirst : (registry_scan registry 1 n).1 = some b :=
    registry_scan_last registry n 1 k b h1 (by omega) hk
      (fun m hm1 hm2 => hafter m hm1 (by omega))
  refine ⟨hfirst, fun _ hself => ?_⟩
  have hpos : 1 ≤ (registry_scan registry 1 n).2 :=
    registry_scan_pos registry n 1 k b h1 (by omega) hk
  have hcond : ¬((registry_scan registry 1 n).2 = 0 ∨ self.length = 0) := by
    push_neg
    constructor
    · omega
    · simpa [List.length_eq_zero] using hself
  unfold vcall_jit_record
  rw [if_neg hcond, hfirst]
  rfl

theorem driver_scan_remembers_highest_witness :
    ((1 : Nat) ≤ 2 ∧ (2 : Nat) ≤ 3 ∧
      (fun i => if i = 2 then some 42 else none) 2 = some 42 ∧
      (∀ m, 2 < m → m ≤ 3 → (fun i => if i = 2 then some 42 else none) m = none)) ∧
    (registry_scan (fun i => if i = 2 then some 42 else none) 1 3).1 = some 42 :=
  ⟨⟨by decide, by decide, by rfl,
      by
        intro m hm1 hm2
        have hne : m ≠ 2 := by omega
        simp [hne]⟩,
    (@driver_scan_remembers_highest JitBackend.CUDA false (fun _ a _ => a) (Value.leaf 0)
      (Value.leaf 0) (fun _ => Value.leaf 0) id "Base" "f" fail_func [1] [true] [] state1
      (fun i => if i = 2 then some 42 else none) 3 2 42
      (by decide) (by decide) (by rfl)
      (by
        intro m hm1 hm2
        have hne : m ≠ 2 := by omega
        simp [hne])).1⟩

/-- A callback that returns a fixed leaf and schedules one side effect,
so that its invocations are observable in the side-effect log. -/
def se_func : Func :=
  fun _ _ s => .ok (Value.leaf 5, { s with sideEffects := s.sideEffects ++ [7] })

/-- The empty backend state. -/
def state0 : JitState := ⟨[], [], [], false, [], 0⟩

/-- C2 (counterexample): with two live implementations and a selector
whose lanes are all null (`self = [0, 0]`, no lane selects any
implementation), `record_call` still invokes the callback once per live
implementation (two side effects are scheduled) and still creates a
jump-table node — the code only short-circuits on `n_inst_actual == 0`
or `self.size() == 0`, not on all-null selectors or all-false masks. -/
theorem record_call_all_null_counterexample :
    (match vcall_jit_record JitBackend.CUDA false (fun _ a _ => a) (Value.leaf 0)
        (Value.leaf 0) (fun n => Value.arr (List.replicate n (Value.leaf 0))) id
        "Base" "f" 2 registry2 se_func [0, 0] [true, true] [] state0 with
      | .ok (_, s') => (s'.vcalls.length, s'.sideEffects)
      | .error _ => (0, [])) = (1, [7, 7]) := by
  rfl

/-- C2 (amended): if zero implementations are live, or the self selector
has zero lanes (an empty selector array), `record_call` returns the
zero-filled result of the selector's lane count with the backend state
unchanged (no side effect, no jump-table node), for every callback — so
the callback is never invoked. -/
theorem record_call_zero_cases
    {B : JitBackend} {rv : Bool} {selectR : List Bool → Value → Value → Value}
    {zeroR resultShape : Value} {zeroSizedR : Nat → Value} {placeholderF : Value → Value}
    {dom nm : String} {n_max : Nat} {registry : Nat → Option Nat}
    {self : List Nat} {mask : List Bool} {args : List Value} {s : JitState}
    (h : (registry_scan registry 1 n_max).2 = 0 ∨ self = []) :
    ∀ func : Func,
      vcall_jit_record B rv selectR zeroR resultShape zeroSizedR placeholderF dom nm n_max
        registry func self mask args s = .ok (zeroSizedR self.length, s) := by
  intro func
  have hc : (registry_scan registry 1 n_max).2 = 0 ∨ self.length = 0 := by
    rcases h with h | h
    · exact Or.inl h
    · exact Or.inr (by simp [h])
  unfold vcall_jit_record
  rw [if_pos hc]

theorem record_call_zero_cases_witness :
    ((registry_scan (fun _ => none) 1 3).2 = 0 ∨ ([4, 5] : List Nat) = []) ∧
    vcall_jit_record JitBackend.LLVM false (fun _ a _ => a) (Value.leaf 0) (Value.leaf 0)
        (fun n => Value.arr (List.replicate n (Value.leaf 0))) id "Base" "f" 3
        (fun _ => none) se_func [4, 5] [true, true] [] state1
      = .ok (Value.arr (List.replicate 2 (Value.leaf 0)), state1) :=
  ⟨Or.inl (by rfl),
    @record_call_zero_cases JitBackend.LLVM false (fun _ a _ => a) (Value.leaf 0)
      (Value.leaf 0) (fun n => Value.arr (List.replicate n (Value.leaf 0))) id "Base" "f" 3
      (fun _ => none) [4, 5] [true, true] [] state1 (Or.inl (by rfl)) se_func⟩

/-- A callback that records, per invocation, whether any of its
arguments carried a mask override in its masking slot (1) or none
did (0). -/
def mask_probe_func : Func := fun _ as s =>
  .ok (Value.leaf 5,
    { s with sideEffects :=
        s.sideEffects ++ [if as.any (fun a => a.maskSlot.isSome) then 1 else 0] })

/-- C3 (counterexample): on the multi-instance path with a non-void
result type, both recorded invocations of the callback received
arguments whose masking slots carried no mask override at all (the
probe records 0 per invocation): the source applies
`set_mask<Is, N>(true, args)` only in the void-result branch (line 103)
and passes the arguments unchanged in the non-void branch (line 106),
so the claim's "both void and non-void result types" is false. -/
theorem branch_nonvoid_unmasked_counterexample :
    (match vcall_jit_record_impl JitBackend.CUDA false (fun _ a _ => a) (Value.leaf 0)
        (Value.leaf 0) "Base" "f" 2 2 0 registry2 mask_probe_func [1, 2] [true, true]
        [Value.leaf 3] state0 with
      | .ok (_, s') => s'.sideEffects
      | .error _ => [9]) = [0, 0] := by
  rfl

/-- C3 (amended): each per-implementation invocation of the user
callback in the multi-instance recorder receives the original arguments
each forced to carry the unconditional always-true mask when the result
type is void, and the original arguments unchanged (no mask override)
when the result type is non-void: a branch behaves identically to one
whose callback is handed exactly those argument lists. -/
theorem branch_callback_args
    (B : JitBackend) (dom nm : String) (func : Func) (args : List Value)
    (base j rb : Nat) (s : JitState) :
    record_branch B true dom nm func args base j rb s =
      record_branch B true dom nm
        (fun p _ t => func p (args.map (set_mask MaskArg.always_true)) t) args base j rb s ∧
    record_branch B false dom nm func args base j rb s =
      record_branch B false dom nm
        (fun p _ t => func p (args.map plain_arg) t) args base j rb s :=
  ⟨rfl, rfl⟩

theorem value_induction {P : Value → Prop} {Q : List Value → Prop}
    (hleaf : ∀ i, P (Value.leaf i))
    (harr : ∀ es, Q es → P (Value.arr es))
    (hdiff : ∀ v, P v → P (Value.diffw v))
    (hstrct : ∀ fs, Q fs → P (Value.strct fs))
    (hopaq : P Value.opaq)
    (hnil : Q [])
    (hcons : ∀ v vs, P v → Q vs → Q (v :: vs)) :
    (∀ v, P v) ∧ (∀ vs, Q vs) := by
  have key : ∀ n : Nat,
      (∀ v : Value, sizeOf v ≤ n → P v) ∧ (∀ vs : List Value, sizeOf vs ≤ n → Q vs) := by
    intro n
    induction n with
    | zero =>
      constructor <;> intro x hx <;> cases x <;> simp at hx <;> omega
    | succ n ih =>
      constructor
      · intro v hv
        cases v with
        | leaf i => exact hleaf i
        | arr es =>
          refine harr es (ih.2 es ?_)
          simp at hv
          omega
        | diffw w =>
          refine hdiff w (ih.1 w ?_)
          simp at hv
          omega
        | strct fs =>
          refine hstrct fs (ih.2 fs ?_)
          simp at hv
          omega
        | opaq => exact hopaq
      · intro vs hvs
        cases vs with
        | nil => exact hnil
        | cons v vs' =>
          have h1 : sizeOf v ≤ n := by
            simp at hvs
            omega
          have h2 : sizeOf vs' ≤ n := by
            simp at hvs
            omega
          exact hcons v vs' (ih.1 v h1) (ih.2 vs' h2)
  exact ⟨fun v => (key (sizeOf v)).1 v (le_refl _), fun vs => (key (sizeOf vs)).2 vs (le_refl _)⟩

theorem getElem?_of_drop_cons {ixs : List Nat} {off a : Nat} {rest : List Nat}
    (h : ixs.drop off = a :: rest) : ixs[off]? = some a := by
  have hd := List.getElem?_drop ixs off 0
  rw [Nat.add_zero] at hd
  rw [← hd, h]
  simp

theorem collect_write_aux :
    (∀ v : Value, ∀ (l ixs rest : List Nat) (off : Nat),
      collect_indices v = .ok l → ixs.drop off = l ++ rest →
      write_indices ixs (zero_value v) off = (v, off + l.length)) ∧
    (∀ vs : List Value, ∀ (l ixs rest : List Nat) (off : Nat),
      collect_list vs = .ok l → ixs.drop off = l ++ rest →
      write_vals ixs (zero_vals vs) off = (vs, off + l.length)) := by
  apply value_induction
  · intro i l ixs rest off hc hd
    by_cases hi : i = 0
    · simp [collect_indices, hi] at hc
    · simp only [collect_indices, hi, if_neg] at hc
      cases hc
      have hoff : ixs[off]? = some i := getElem?_of_drop_cons hd
      simp [zero_value, write_indices, List.getD_eq_getElem?_getD, hoff]
  · intro es ihq l ixs rest off hc hd
    have hc' : collect_list es = .ok l := hc
    have := ihq l ixs rest off hc' hd
    simp [zero_value, write_indices, this]
  · intro v ihp l ixs rest off hc hd
    have hc' : collect_indices v = .ok l := hc
    have := ihp l ixs rest off hc' hd
    simp [zero_value, write_indices, this]
  · intro fs ihq l ixs rest off hc hd
    have hc' : collect_list fs = .ok l := hc
    have := ihq l ixs rest off hc' hd
    simp [zero_value, write_indices, this]
  · intro l ixs rest off hc hd
    have : l = [] := by
      simpa [collect_indices] using hc.symm
    subst this
    simp [zero_value, write_indices]
  · intro l ixs rest off hc hd
    have : l = [] := by
      simpa [collect_list] using hc.symm
    subst this
    simp [zero_vals, write_vals]
  · intro v vs ihp ihq l ixs rest off hc hd
    rcases hca : collect_indices v with e | la
    · simp [collect_list, hca] at hc
    rcases hcb : collect_list vs with e | lb
    · simp [collect_list, hca, hcb] at hc
    simp only [collect_list, hca, hcb] at hc
    cases hc
    rw [List.append_assoc] at hd
    have h1 := ihp la ixs (lb ++ rest) off hca hd
    have hd2 : ixs.drop (off + la.length) = lb ++ rest := by
      rw [← List.drop_drop, hd, List.drop_left]
    have h2 := ihq lb ixs rest (off + la.length) hcb hd2
    simp only [zero_vals, write_vals, h1, h2]
    simp [List.length_append]
    omega

/-- C6: collecting a value's trace references and then writing that same
index list (from cursor 0) into a freshly zero-initialized value of the
same structure reproduces the original value — the same references in
the same leaf positions — and the cursor finishes advanced by exactly
the collected list's length, so it is exactly exhausted when the
traversal completes. -/
theorem collect_write_roundtrip (v : Value) (l : List Nat)
    (hc : collect_indices v = .ok l) :
    write_indices l (zero_value v) 0 = (v, l.length) := by
  have h := collect_write_aux.1 v l l [] 0 hc (by simp)
  simpa using h

theorem collect_write_roundtrip_witness :
    collect_indices
        (Value.strct [Value.leaf 3, Value.arr [Value.leaf 5, Value.opaq],
          Value.diffw (Value.leaf 7)])
      = .ok [3, 5, 7] ∧
    write_indices [3, 5, 7]
        (zero_value (Value.strct [Value.leaf 3, Value.arr [Value.leaf 5, Value.opaq],
          Value.diffw (Value.leaf 7)])) 0
      = (Value.strct [Value.leaf 3, Value.arr [Value.leaf 5, Value.opaq],
          Value.diffw (Value.leaf 7)], 3) :=
  ⟨by rfl,
    collect_write_roundtrip
      (Value.strct [Value.leaf 3, Value.arr [Value.leaf 5, Value.opaq],
        Value.diffw (Value.leaf 7)]) [3, 5, 7] (by rfl)⟩

theorem sum_length_take_mono :
    ∀ (news : List (List Nat)) (a b : Nat), a ≤ b →
      ((news.take a).map List.length).sum ≤ ((news.take b).map List.length).sum := by
  intro news
  induction news with
  | nil => intro a b _; simp
  | cons x xs ih =>
    intro a b hab
    cases a with
    | zero => simp
    | succ a =>
      cases b with
      | zero => omega
      | succ b =>
        simp only [List.take_succ_cons, List.map_cons, List.sum_cons]
        exact Nat.add_le_add_left (ih a b (by omega)) _

theorem join_length_const :
    ∀ (outs : List (List Nat)) (c : Nat), (∀ o ∈ outs, o.length = c) →
      outs.join.length = outs.length * c := by
  intro outs
  induction outs with
  | nil => intro c _; simp
  | cons x xs ih =>
    intro c h
    have hx : x.length = c := h x (List.mem_cons_self x xs)
    have hxs := ih c (fun o ho => h o (List.mem_cons_of_mem x ho))
    simp [List.join, hx, hxs, Nat.succ_mul]
    omega

theorem record_loop_ok {B : JitBackend} {rv : Bool} {dom nm : String}
    {registry : Nat → Option Nat} {func : Func} {args : List Value}
    (hf : FuncOk func) :
    ∀ (r i j : Nat) (outAll seCount : List Nat) (s : JitState)
      (outAll' seCount' : List Nat) (j' : Nat) (s' : JitState),
      record_loop B rv dom nm registry func args r i j outAll seCount s
        = .ok (outAll', seCount', j', s') →
      ∃ outs news : List (List Nat),
        outs.length = (live_ids registry i r).length ∧
        news.length = outs.length ∧
        outAll' = outAll ++ outs.join ∧
        j' = j + outs.length ∧
        s'.prefixStack = s.prefixStack ∧ s'.maskStack = s.maskStack ∧
        s'.postponeSideEffects = s.postponeSideEffects ∧ s'.vcalls = s.vcalls ∧
        s'.sideEffects = s.sideEffects ++ news.join ∧
        seCount'.length = seCount.length ∧
        (∀ m, m < j → seCount'.getD m 0 = seCount.getD m 0) ∧
        (∀ k, k < outs.length → j + k < seCount.length →
          seCount'.getD (j + k) 0
            = s.sideEffects.length + ((news.take (k + 1)).map List.length).sum) ∧
        (rv = false → ∀ c, FuncShape func c → ∀ o ∈ outs, o.length = c) := by
  intro r
  induction r with
  | zero =>
    intro i j outAll seCount s outAll' seCount' j' s' h
    rw [record_loop] at h
    cases h
    refine ⟨[], [], by simp [live_ids], rfl, by simp, by simp, rfl, rfl, rfl, rfl,
      by simp, rfl, fun m _ => rfl, fun k hk _ => absurd hk (by simp), ?_⟩
    intro _ c _ o ho
    simp at ho
  | succ r ih =>
    intro i j outAll seCount s outAll' seCount' j' s' h
    rw [record_loop] at h
    rcases hreg : registry i with _ | base <;> simp only [hreg] at h
    · have hl : live_ids registry i (r + 1) = live_ids registry (i + 1) r := by
        simp [live_ids, hreg]
      rw [hl]
      exact ih (i + 1) j outAll seCount s outAll' seCount' j' s' h
    · rcases hbr : record_branch B rv dom nm func args base j (seCount.getD 0 0) s
        with ⟨e0, sC⟩ | ⟨outs0, s6⟩ <;> simp only [hbr] at h
      · simp at h
      · obtain ⟨bp, bm, bfl, bv, ⟨bnew, bse⟩, bvoid, bshape⟩ := record_branch_ok hf hbr
        obtain ⟨outsR, newsR, ih1, ih2, ih3, ih4, ih5, ih6, ih7, ih8, ih9, ih10,
          ih11, ih12, ih13⟩ := ih (i + 1) (j + 1) (outAll ++ outs0)
            (seCount.set j (jit_side_effects_scheduled s6)) s6 outAll' seCount' j' s' h
        have hl : live_ids registry i (r + 1) = i :: live_ids registry (i + 1) r := by
          simp [live_ids, hreg]
        refine ⟨outs0 :: outsR, bnew :: newsR, ?_, ?_, ?_, ?_, ?_, ?_, ?_, ?_, ?_, ?_,
          ?_, ?_, ?_⟩
        · rw [hl]
          simp [ih1]
        · simp [ih2]
        · rw [ih3]
          simp [List.append_assoc]
        · simp [ih4]
          omega
        · rw [ih5, bp]
        · rw [ih6, bm]
        · rw [ih7, bfl]
        · rw [ih8, bv]
        · rw [ih9, bse]
          simp [List.append_assoc]
        · rw [ih10, List.length_set]
        · intro m hm
          rw [ih11 m (by omega)]
          exact getD_set_ne _ _ _ _ _ (by omega)
        · intro k hk hks
          cases k with
          | zero =>
            have hj : j < seCount.length := by omega
            have h0 := ih11 j (by omega)
            rw [Nat.add_zero, h0, getD_set_self _ _ _ _ hj]
            simp [jit_side_effects_scheduled, bse]
          | succ k =>
            have hk' : k < outsR.length := by
              simp at hk
              omega
            have hks' : (j + 1) + k < (seCount.set j (jit_side_effects_scheduled s6)).length := by
              rw [List.length_set]
              omega
            have hrw : j + (k + 1) = (j + 1) + k := by omega
            rw [hrw, ih12 k hk' hks']
            simp [bse, List.take_succ_cons]
            omega
        · intro hrv c hsh o ho
          rcases List.mem_cons.mp ho with ho | ho
          · subst ho
            exact bshape hrv c hsh
          · exact ih13 hrv c hsh o ho

/-- C7: for every successful multi-instance recording, the side-effect
count table handed to the jump-table node has length exactly
`n_inst_actual + 1`; entry 0 is the number of side effects scheduled
before any implementation ran; entry i (i ≥ 1) is the cumulative
scheduled count immediately after implementation i's branch was
recorded (the baseline plus the side effects `news` scheduled by the
first i branches, which together make up everything appended to the
log); and the table is monotonically non-decreasing. -/
theorem impl_se_count_table
    {B : JitBackend} {rv : Bool} {selectR : List Bool → Value → Value → Value}
    {zeroR resultShape : Value} {dom nm : String} {n_max n_act inst : Nat}
    {registry : Nat → Option Nat} {func : Func} {self : List Nat} {mask : List Bool}
    {args : List Value} {s : JitState} {res : Value} {s' : JitState}
    (hne : n_act ≠ 1) (hf : FuncOk func)
    (hlive : (live_ids registry 1 n_max).length = n_act)
    (h : vcall_jit_record_impl B rv selectR zeroR resultShape dom nm n_max n_act inst
      registry func self mask args s = .ok (res, s')) :
    ∃ (rec : VCallRecord) (news : List (List Nat)),
      s'.vcalls = s.vcalls ++ [rec] ∧
      rec.se_count.length = n_act + 1 ∧
      news.length = n_act ∧
      s'.sideEffects = s.sideEffects ++ news.join ∧
      (∀ i2, i2 ≤ n_act → rec.se_count.getD i2 0
        = s.sideEffects.length + ((news.take i2).map List.length).sum) ∧
      (∀ a b, a ≤ b → b ≤ n_act → rec.se_count.getD a 0 ≤ rec.se_count.getD b 0) := by
  unfold vcall_jit_record_impl at h
  rw [if_neg hne] at h
  rcases hcol : collect_list args with msg | ind <;> simp only [hcol] at h
  · simp at h
  · rcases hloop : record_loop B rv dom nm registry func args n_max 1 1 []
        ((List.replicate (n_act + 1) 0).set 0 (jit_side_effects_scheduled s)) s
      with ⟨e0, sE⟩ | ⟨oA, seC, jf, s6⟩ <;> simp only [hloop] at h
    · simp at h
    · obtain ⟨res0, sfin, heq, hvc, hsef, hpre, hmsk, hflag⟩ :=
        finish_vcall_spec rv resultShape dom nm n_act ind oA seC s6
      rw [heq] at h
      cases h
      obtain ⟨outs, news, l1, l2, l3, l4, l5, l6, l7, l8, l9, l10, l11, l12, l13⟩ :=
        record_loop_ok hf n_max 1 1 [] _ s oA seC jf s6 hloop
      have hone : outs.length = n_act := by
        rw [l1, hlive]
      have hent : ∀ i2, i2 ≤ n_act → seC.getD i2 0
          = s.sideEffects.length + ((news.take i2).map List.length).sum := by
        intro i2 hi2
        cases i2 with
        | zero =>
          have h0 := l11 0 (by omega)
          rw [h0, getD_set_self _ _ _ _ (by simp)]
          simp [jit_side_effects_scheduled]
        | succ k =>
          have hkk : k < outs.length := by omega
          have hks : 1 + k < ((List.replicate (n_act + 1) 0).set 0
              (jit_side_effects_scheduled s)).length := by
            simp
            omega
          have h12 := l12 k hkk hks
          rw [show (1 : Nat) + k = k + 1 from by omega] at h12
          exact h12
      refine ⟨⟨dom ++ "::" ++ nm ++ "()", s6.nextVar, n_act, ind, oA, seC,
        oA.length / n_act⟩, news, ?_, ?_, ?_, ?_, hent, ?_⟩
      · rw [hvc, l8]
      · rw [l10]
        simp
      · rw [l2, hone]
      · rw [hsef, l9]
      · intro a b hab hbn
        rw [hent a (le_trans hab hbn), hent b hbn]
        exact Nat.add_le_add_left (sum_length_take_mono news a b hab) _

theorem se_func_funcOk : FuncOk se_func :=
  fun _ _ s => ⟨rfl, rfl, rfl, rfl, [7], rfl⟩

theorem se_func_shape : FuncShape se_func 1 := by
  intro p as u tmp u' hh
  cases hh
  exact ⟨[5], rfl, rfl⟩

theorem impl_se_count_table_witness :
    ((2 : Nat) ≠ 1 ∧ (live_ids registry2 1 2).length = 2 ∧
      vcall_jit_record_impl JitBackend.CUDA false (fun _ a _ => a) (Value.leaf 0)
          (Value.leaf 0) "Base" "f" 2 2 0 registry2 se_func [1, 2] [true, true] [] state0
        = .ok (Value.leaf 1, ⟨[7, 7], [], [], false,
            [⟨"Base::f()", 0, 2, [], [5, 5], [0, 1, 2], 1⟩], 2⟩)) ∧
    (∃ (rec : VCallRecord) (news : List (List Nat)),
      (⟨[7, 7], [], [], false, [⟨"Base::f()", 0, 2, [], [5, 5], [0, 1, 2], 1⟩], 2⟩ :
          JitState).vcalls = state0.vcalls ++ [rec] ∧
      rec.se_count.length = 2 + 1 ∧
      news.length = 2 ∧
      (⟨[7, 7], [], [], false, [⟨"Base::f()", 0, 2, [], [5, 5], [0, 1, 2], 1⟩], 2⟩ :
          JitState).sideEffects = state0.sideEffects ++ news.join ∧
      (∀ i2, i2 ≤ 2 → rec.se_count.getD i2 0
        = state0.sideEffects.length + ((news.take i2).map List.length).sum) ∧
      (∀ a b, a ≤ b → b ≤ 2 → rec.se_count.getD a 0 ≤ rec.se_count.getD b 0)) :=
  ⟨⟨by decide, by rfl, by rfl⟩,
    @impl_se_count_table JitBackend.CUDA false (fun _ a _ => a) (Value.leaf 0)
      (Value.leaf 0) "Base" "f" 2 2 0 registry2 se_func [1, 2] [true, true] [] state0
      (Value.leaf 1)
      (⟨[7, 7], [], [], false, [⟨"Base::f()", 0, 2, [], [5, 5], [0, 1, 2], 1⟩], 2⟩)
      (by decide) se_func_funcOk (by rfl) (by rfl)⟩

/-- C8: for every successful multi-instance recording with a fixed
result shape (`c` collected references per invocation, which the
source's typing guarantees), the concatenated output index table handed
to the jump-table node has length `n_inst_actual * c` — an exact
multiple of `n_inst_actual` — and the per-slot output buffer the
backend fills has length `out_all.length / n_inst_actual`. -/
theorem impl_out_table_multiple
    {B : JitBackend} {selectR : List Bool → Value → Value → Value}
    {zeroR resultShape : Value} {dom nm : String} {n_max n_act inst : Nat}
    {registry : Nat → Option Nat} {func : Func} {self : List Nat} {mask : List Bool}
    {args : List Value} {s : JitState} {res : Value} {s' : JitState} {c : Nat}
    (hne : n_act ≠ 1) (hf : FuncOk func)
    (hlive : (live_ids registry 1 n_max).length = n_act)
    (hshape : FuncShape func c)
    (h : vcall_jit_record_impl B false selectR zeroR resultShape dom nm n_max n_act inst
      registry func self mask args s = .ok (res, s')) :
    ∃ rec : VCallRecord,
      s'.vcalls = s.vcalls ++ [rec] ∧
      rec.out_all.length = n_act * c ∧
      n_act ∣ rec.out_all.length ∧
      rec.out_len = rec.out_all.length / n_act := by
  unfold vcall_jit_record_impl at h
  rw [if_neg hne] at h
  rcases hcol : collect_list args with msg | ind <;> simp only [hcol] at h
  · simp at h
  · rcases hloop : record_loop B false dom nm registry func args n_max 1 1 []
        ((List.replicate (n_act + 1) 0).set 0 (jit_side_effects_scheduled s)) s
      with ⟨e0, sE⟩ | ⟨oA, seC, jf, s6⟩ <;> simp only [hloop] at h
    · simp at h
    · obtain ⟨res0, sfin, heq, hvc, hsef, hpre, hmsk, hflag⟩ :=
        finish_vcall_spec false resultShape dom nm n_act ind oA seC s6
      rw [heq] at h
      cases h
      obtain ⟨outs, news, l1, l2, l3, l4, l5, l6, l7, l8, l9, l10, l11, l12, l13⟩ :=
        record_loop_ok hf n_max 1 1 [] _ s oA seC jf s6 hloop
      have houts : ∀ o ∈ outs, o.length = c := l13 rfl c hshape
      have hlen : oA.length = n_act * c := by
        rw [l3]
        simp only [List.nil_append]
        rw [join_length_const outs c houts, l1, hlive]
      refine ⟨⟨dom ++ "::" ++ nm ++ "()", s6.nextVar, n_act, ind, oA, seC,
        oA.length / n_act⟩, ?_, hlen, ?_, rfl⟩
      · rw [hvc, l8]
      · rw [hlen]
        exact ⟨c, rfl⟩

theorem impl_out_table_multiple_witness :
    ((2 : Nat) ≠ 1 ∧ (live_ids registry2 1 2).length = 2 ∧ FuncShape se_func 1 ∧
      vcall_jit_record_impl JitBackend.CUDA false (fun _ a _ => a) (Value.leaf 0)
          (Value.leaf 0) "Base" "f" 2 2 0 registry2 se_func [1, 2] [true, true] [] state0
        = .ok (Value.leaf 1, ⟨[7, 7], [], [], false,
            [⟨"Base::f()", 0, 2, [], [5, 5], [0, 1, 2], 1⟩], 2⟩)) ∧
    (∃ rec : VCallRecord,
      (⟨[7, 7], [], [], false, [⟨"Base::f()", 0, 2, [], [5, 5], [0, 1, 2], 1⟩], 2⟩ :
          JitState).vcalls = state0.vcalls ++ [rec] ∧
      rec.out_all.length = 2 * 1 ∧
      2 ∣ rec.out_all.length ∧
      rec.out_len = rec.out_all.length / 2) :=
  ⟨⟨by decide, by rfl, se_func_shape, by rfl⟩,
    @impl_out_table_multiple JitBackend.CUDA (fun _ a _ => a) (Value.leaf 0)
      (Value.leaf 0) "Base" "f" 2 2 0 registry2 se_func [1, 2] [true, true] [] state0
      (Value.leaf 1)
      (⟨[7, 7], [], [], false, [⟨"Base::f()", 0, 2, [], [5, 5], [0, 1, 2], 1⟩], 2⟩) 1
      (by decide) se_func_funcOk (by rfl) se_func_shape (by rfl)⟩

end Enoki




